import Mathlib

/-!
Verification of the rpi-devenv bare-metal HAL against its natural-language
specification.  Each peripheral operation relevant to the claims is shallowly
embedded as an executable Lean function over explicit state: machine `u32`
values are `Nat` with truncation written out where the source truncates,
MMIO register writes are recorded as values or traces, and fallible paths
(panics, asserts) become `Option`/dedicated constructors.
-/

namespace RpiDevenv

/-- Mask of a full 32-bit word, used to embed `u32` bitwise complement:
Rust `!m` on a `u32` is `U32_MASK ^^^ m`. -/
def U32_MASK : Nat := 0xFFFFFFFF

/-! ### Mini-UART baud configuration (src/aux/uart.rs, `set_baud_rate`) -/

/-- The VPU system clock frequency assumed by the driver. -/
def CLOCK_SPEED : Nat := 250000000

/-- Embedding of `MiniUart::set_baud_rate`.  The source asserts that the
requested baud rate lies in `476..=31_250_000` (panicking otherwise, embedded
as `none`), writes `CLOCK_SPEED / (8 * baud_rate) - 1` to the BAUD register
and stores the requested rate in the `baud_rate` field (returned by
`baud_rate()`).  The result is `(BAUD register value, stored field)`. -/
def set_baud_rate (baud : Nat) : Option (Nat × Nat) :=
  if 476 ≤ baud ∧ baud ≤ 31250000 then
    some (CLOCK_SPEED / (8 * baud) - 1, baud)
  else
    none

/-! ### GPIO pin ownership (src/gpio.rs, `GpioSet` and `Pin::get`) -/

/-- The process-wide pin ownership bitmap: two 32-bit words. -/
structure GpioSet where
  lower : Nat
  upper : Nat
deriving Repr, DecidableEq

/-- Embedding of `GpioSet::lock`: `fetch_or` of the pin's mask into the
matching word, returning whether the bit was set in the old value (the
source computes `old & mask != 0`). -/
def GpioSet.lock (s : GpioSet) (pin : Nat) : Bool × GpioSet :=
  if pin < 32 then
    let mask := 1 <<< pin
    (s.lower &&& mask ≠ 0, { s with lower := s.lower ||| mask })
  else
    let mask := 1 <<< (pin - 32)
    (s.upper &&& mask ≠ 0, { s with upper := s.upper ||| mask })

/-- Embedding of `GpioSet::unlock`: `fetch_and` with the complemented mask,
returning whether the bit was set in the old value. -/
def GpioSet.unlock (s : GpioSet) (pin : Nat) : Bool × GpioSet :=
  if pin < 32 then
    let mask := 1 <<< pin
    (s.lower &&& mask ≠ 0, { s with lower := s.lower &&& (U32_MASK ^^^ mask) })
  else
    let mask := 1 <<< (pin - 32)
    (s.upper &&& mask ≠ 0, { s with upper := s.upper &&& (U32_MASK ^^^ mask) })

/-- Embedding of `Pin::<PIN, MODE>::get`.  The compile-time assertion
`PIN < 53` is the outer `Option` (`none` = the const assert fails).  The
source then calls `GPIO_SET.lock::<PIN>()` but discards its result, updates
the function-select word and unconditionally returns `Some(Pin)`: the inner
`Option` is that returned value, paired with the updated ownership bitmap
and the value written to the FSEL word (given the old word contents). -/
def pinGet (pin mode : Nat) (s : GpioSet) (fselOld : Nat) :
    Option (Option (GpioSet × Nat)) :=
  if pin < 53 then
    let s1 := (s.lock pin).2
    let shift := (pin % 10) * 3
    let fselNew := (fselOld &&& (U32_MASK ^^^ (7 <<< shift))) ||| (mode <<< shift)
    some (some (s1, fselNew))
  else
    none

/-! ### Aux-SPI FIFO entry packing (src/aux/spi/implementation.rs, `to_entry`) -/

/-- Embedding of `to_entry`: packs a chunk of at most 3 bytes into a 32-bit
FIFO entry.  Bytes are ORed in at `(len - i) * 8` (most-significant-first) or
`i * 8` (least-significant-first), then the source ORs `slice.len()` — the
byte count — into bits 24..32. -/
def to_entry (slice : List Nat) (msBitFirst : Bool) : Nat :=
  let entry :=
    if msBitFirst then
      slice.enum.foldl
        (fun e p => e ||| ((p.2 % 256) <<< ((slice.length - p.1) * 8))) 0
    else
      slice.enum.foldl (fun e p => e ||| ((p.2 % 256) <<< (p.1 * 8))) 0
  entry ||| (slice.length <<< 24)

/-! ### Mini-UART blocking read (src/aux/uart.rs, `eio::Read for MiniUart`) -/

/-- Result of the blocking `read`: overrun error or `Ok(count)` together with
the bytes stored into the buffer. -/
inductive UartReadResult where
  | overrun : UartReadResult
  | ok (count : Nat) (bytes : List Nat) : UartReadResult
deriving Repr, DecidableEq

/-- Loop body of the blocking `read`.  One LINE_STATUS value is consumed from
`statuses` per poll; the data returned by the k-th IO_REG read is `datas k`
(stored truncated to its low byte, as the source casts `u32` to `u8`).
Exhausting `statuses` models spinning forever and yields `none`.  `count`
bytes are already in `acc`. -/
def uartReadGo (bufLen : Nat) (datas : Nat → Nat) :
    List Nat → Nat → List Nat → Option UartReadResult
  | [], _, _ => none
  | st :: sts, count, acc =>
    if st &&& 2 ≠ 0 then
      some .overrun
    else if st &&& 1 ≠ 0 then
      if count + 1 = bufLen then some (.ok bufLen (acc ++ [datas count % 256]))
      else uartReadGo bufLen datas sts (count + 1) (acc ++ [datas count % 256])
    else if count ≠ 0 then
      some (.ok count acc)
    else
      uartReadGo bufLen datas sts count acc

/-- Embedding of the blocking `MiniUart::read` over a buffer of length
`bufLen`: with an empty buffer the byte loop never runs and the call returns
`Ok(buf.len())` immediately. -/
def uartRead (statuses : List Nat) (datas : Nat → Nat) (bufLen : Nat) :
    Option UartReadResult :=
  if bufLen = 0 then some (.ok 0 []) else uartReadGo bufLen datas statuses 0 []

/-! ### Mini-UART interrupt handler (src/aux/uart.rs, `interrupt_handler`) -/

/-- Outcome of the Mini-UART interrupt handler.  `panicTodo` is the
`todo!()` arm, `panicUnreachable` the `unreachable!()` arm; `ok` carries the
INTERRUPT_ENABLE register value after the handler, the reader waker slot
after the handler, and the list of wakers woken. -/
inductive UartIrqResult where
  | panicTodo : UartIrqResult
  | panicUnreachable : UartIrqResult
  | ok (enableReg : Nat) (wakerSlot : Option Nat) (woken : List Nat) : UartIrqResult
deriving Repr, DecidableEq

/-- Embedding of the Mini-UART `interrupt_handler`: dispatch on bits 1..3 of
INTERRUPT_ID_REG.  Case `0b00` does nothing; case `0b10` clears bit 0 of
INTERRUPT_ENABLE_REG and takes-and-wakes the reader waker; case `0b01` is
`todo!()`; the remaining case is `unreachable!()`. -/
def uartInterruptHandler (interruptId enableReg : Nat)
    (readerWaker : Option Nat) : UartIrqResult :=
  match (interruptId >>> 1) &&& 0b11 with
  | 0 => .ok enableReg readerWaker []
  | 2 => .ok (enableReg &&& (U32_MASK ^^^ 0b01)) none readerWaker.toList
  | 1 => .panicTodo
  | _ => .panicUnreachable

/-! ### GPIO interrupt handlers (src/gpio.rs, `interrupt_handler1/2`) -/

/-- State threaded through a GPIO interrupt handler: the 54 waker slots, the
six detect-enable registers of the handled bank, the values written to the
bank's event-detect-status register, and the wakers woken (in order). -/
structure GpioIrqState where
  wakers : List (Option Nat)
  detectRegs : List Nat
  edsWrites : List Nat
  woken : List Nat
deriving Repr, DecidableEq

/-- Per-set-bit body shared by both GPIO interrupt handlers: take the waker
at index `slotIndex`, clear bit `bitIndex` in every detect-enable register of
the bank, write `1 <<< bitIndex` to the bank's event-detect-status register,
and wake the taken waker. -/
def gpioIrqStep (st : GpioIrqState) (slotIndex bitIndex : Nat) : GpioIrqState :=
  let waker := st.wakers.getD slotIndex none
  { wakers := st.wakers.set slotIndex none
    detectRegs := st.detectRegs.map (fun r => r &&& (U32_MASK ^^^ (1 <<< bitIndex)))
    edsWrites := st.edsWrites ++ [1 <<< bitIndex]
    woken := st.woken ++ waker.toList }

/-- Embedding of `interrupt_handler1` (bank 1, pins 0..31): iterates over the
set bits of the bank-1 event-detect-status value in ascending order, using
`WAKER_SET[bit_index]` as the waker slot. -/
def interruptHandler1 (status : Nat) (wakers : List (Option Nat))
    (detectRegs : List Nat) : GpioIrqState :=
  ((List.range 32).filter (fun b => status.testBit b)).foldl
    (fun st b => gpioIrqStep st b b)
    ⟨wakers, detectRegs, [], []⟩

/-- Embedding of `interrupt_handler2` (bank 2, pins 32..53): iterates over
the set bits of the bank-2 event-detect-status value in ascending order.
The source indexes the waker set with the raw `bit_index` — not
`bit_index + 32` — so a bank-2 event touches the waker slot of pin
`bit_index`, not of pin `bit_index + 32`. -/
def interruptHandler2 (status : Nat) (wakers : List (Option Nat))
    (detectRegs : List Nat) : GpioIrqState :=
  ((List.range 32).filter (fun b => status.testBit b)).foldl
    (fun st b => gpioIrqStep st b b)
    ⟨wakers, detectRegs, [], []⟩

/-! ### System time driver (src/system_time/driver.rs) -/

/-- Embedding of `AlarmState`: 64-bit timestamp plus callback and context,
modelled as opaque numeric identifiers. -/
structure AlarmState where
  timestamp : Nat
  callbackId : Nat
  ctx : Nat
deriving Repr, DecidableEq

/-- The compare/status bit of an alarm handle: `handle.id() == 0` is channel
C1 (CS bit 1), otherwise channel C3 (CS bit 3). -/
def channelBit (id : Nat) : Nat := if id = 0 then 1 else 3

/-- Result of `set_alarm`: the returned boolean, the slot contents after the
call, the values written to the channel's compare register, the values
written to the CS register, and the callbacks invoked (always none). -/
structure SetAlarmOut where
  ret : Bool
  slot : Option AlarmState
  compareWrites : List Nat
  csWrites : List Nat
  invocations : List (Nat × Nat)
deriving Repr, DecidableEq

/-- Embedding of `SystemTimeDriver::set_alarm` for the handle with id `id`.
`n1` is the value `now()` returns at the pre-arm check and `n2` at the
post-arm re-check; `csRead` is the value the CS register read returns on the
post-arm false path.  The source panics (`expect`) when the slot is empty at
the record step, embedded as `none`.  The compare write truncates the 64-bit
timestamp to 32 bits (`timestamp as u32`). -/
def setAlarm (id : Nat) (slot : Option AlarmState) (t n1 n2 csRead : Nat) :
    Option SetAlarmOut :=
  let ch := channelBit id
  if t ≤ n1 then
    some ⟨false, none, [], [], []⟩
  else
    match slot with
    | none => none
    | some s =>
      let armed : Option AlarmState := some { s with timestamp := t }
      let compare := t % 2 ^ 32
      if t ≤ n2 then
        some ⟨false, none, [compare],
          [csRead &&& (U32_MASK ^^^ (1 <<< ch))], []⟩
      else
        some ⟨true, armed, [compare], [], []⟩

/-- Result of `alarm_interrupt`: slot contents after the handler, callbacks
invoked with their contexts, compare-register writes and CS-register writes
(in order). -/
structure InterruptOut where
  slot : Option AlarmState
  invocations : List (Nat × Nat)
  compareWrites : List Nat
  csWrites : List Nat
deriving Repr, DecidableEq

/-- The retry loop of `alarm_interrupt`.  `s` is the armed state destructured
on entry (fixed across iterations), `slot` the live slot contents, `nows k`
the value returned by the k-th `now()` read, and `csReads i` the CS value
read inside the `set_alarm` call of the iteration starting at read index
`i`.  Each iteration reads `now` once and `set_alarm` reads it up to twice
more.  `none` models either running out of fuel or the `expect` panic inside
`set_alarm`. -/
def alarmLoop (id : Nat) (s : AlarmState) (nows : Nat → Nat)
    (csReads : Nat → Nat) :
    Option AlarmState → Nat → Nat → Option InterruptOut
  | _, _, 0 => none
  | slot, i, fuel + 1 =>
    if s.timestamp ≤ nows i then
      some ⟨some ⟨0, s.callbackId, s.ctx⟩, [(s.callbackId, s.ctx)], [], []⟩
    else
      match setAlarm id slot s.timestamp
          (nows (i + 1)) (nows (i + 2)) (csReads i) with
      | none => none
      | some r =>
        if r.ret then
          some ⟨r.slot, [], r.compareWrites, r.csWrites⟩
        else
          match alarmLoop id s nows csReads r.slot (i + 3) fuel with
          | none => none
          | some rest =>
            some ⟨rest.slot, rest.invocations,
              r.compareWrites ++ rest.compareWrites,
              r.csWrites ++ rest.csWrites⟩

/-- Embedding of `SystemTimeDriver::alarm_interrupt` for the handle with id
`id`.  On entry the handler writes the single matching channel bit to the CS
register (write-1-to-clear), then reads the armed slot (`expect` panic, that
is `none`, when empty) and runs the retry loop. -/
def alarmInterrupt (id : Nat) (slot : Option AlarmState) (nows : Nat → Nat)
    (csReads : Nat → Nat) (fuel : Nat) : Option InterruptOut :=
  match slot with
  | none => none
  | some s =>
    match alarmLoop id s nows csReads slot 0 fuel with
    | none => none
    | some r => some { r with csWrites := (1 <<< channelBit id) :: r.csWrites }

/-! ### Executor run loop (src/executor.rs, `Executor::run`) -/

/-- Events of one iteration of the executor loop. -/
inductive ExecEvent where
  | pollTasks : ExecEvent
  | csEnter : ExecEvent
  | swapSeqCst (prior : Bool) : ExecEvent
  | wfi : ExecEvent
  | csExit : ExecEvent
deriving Repr, DecidableEq

/-- Embedding of one iteration of `Executor::run`'s loop: poll the tasks,
enter a critical section, swap `WORK_SIGNALED` with `false` using `SeqCst`
ordering, execute WFI only when the swapped-out value was `false`, leave the
critical section.  `signaled` is the value of `WORK_SIGNALED` at the swap
(poll and interrupts may have set it); the result is the flag value after
the iteration and the event trace. -/
def runIteration (signaled : Bool) : Bool × List ExecEvent :=
  (false,
    [ExecEvent.pollTasks, ExecEvent.csEnter, ExecEvent.swapSeqCst signaled]
      ++ (if signaled then [] else [ExecEvent.wfi]) ++ [ExecEvent.csExit])

/-! ### Host serial loader (bootcom/src/main.rs) -/

/-- Serial-port actions of the host loader, in program order. -/
inductive HostEvent where
  | readByte (b : Nat) : HostEvent
  | writeByte (b : Nat) : HostEvent
deriving Repr, DecidableEq

/-- Little-endian byte encoding of a `u32` (`u32::to_le_bytes`). -/
def u32LeBytes (n : Nat) : List Nat :=
  [n % 256, n / 2 ^ 8 % 256, n / 2 ^ 16 % 256, n / 2 ^ 24 % 256]

/-- Embedding of the host loader `main` after the port is opened: read
exactly one byte (`ready`), assert it is `0xFF` (panic = `none`); read the
binary file; convert its length to `u32` (`try_into`, panicking — `none` —
when the length is `2^32` or more); write the 4 little-endian length bytes,
then the payload bytes.  The result is the serial-port event trace. -/
def bootcomRun (ready : Nat) (binary : List Nat) : Option (List HostEvent) :=
  if ready = 0xFF then
    if binary.length < 2 ^ 32 then
      some (HostEvent.readByte ready ::
        ((u32LeBytes binary.length).map HostEvent.writeByte
          ++ binary.map HostEvent.writeByte))
    else
      none
  else
    none

/-- Embedding of the FIFO entry built by `hal_nb::spi::FullDuplex::<u8>::write`:
`word as u32 | 8 << 24` — the upper 8 bits carry the shift count in bits. -/
def fullDuplexU8Entry (word : Nat) : Nat := (word % 256) ||| (8 <<< 24)

/-! ## Theorems -/

/-- Claim C8: `set_baud_rate(B)` panics if and only if B is outside
`[476, 31_250_000]`; for every B in that range it writes exactly
`250_000_000 / (8·B) − 1` (integer division) to the BAUD register and
afterwards `baud_rate()` returns B. -/
theorem set_baud_rate_contract (b : Nat) :
    (set_baud_rate b = none ↔ (b < 476 ∨ 31250000 < b)) ∧
    (∀ r s, set_baud_rate b = some (r, s) →
      r = 250000000 / (8 * b) - 1 ∧ s = b) := by
  by_cases h : 476 ≤ b ∧ b ≤ 31250000 <;>
    simp [set_baud_rate, CLOCK_SPEED, h]
  omega

/-- Witness for claim C8 at the concrete baud rate 115200. -/
theorem set_baud_rate_contract_witness :
    270 = 250000000 / (8 * 115200) - 1 ∧ 115200 = 115200 :=
  (set_baud_rate_contract 115200).2 270 115200 (by decide)

/-- Claim C1 (code bug): the source of `Pin::get` discards the result of
`GPIO_SET.lock::<PIN>()`, so a second consecutive acquisition of pin 0 again
returns `Some` (with the ownership bit already set), where the claim — and
the function's own documentation — require `None`. -/
theorem pinGet_second_acquire_still_some :
    pinGet 0 0 ⟨0, 0⟩ 0 = some (some (⟨1, 0⟩, 0)) ∧
    pinGet 0 0 ⟨1, 0⟩ 0 = some (some (⟨1, 0⟩, 0)) := by decide

/-- Claim C3 (code bug): `to_entry` ORs the chunk's byte count — not the
shift count in bits — into bits 24..32: a full 3-byte chunk yields 3 where
the specification requires 24, and a 1-byte chunk yields 1 where the
sibling `FullDuplex<u8>` implementation writes 8. -/
theorem to_entry_count_field_in_bytes :
    (to_entry [0x2A, 0x2B, 0x2C] false) >>> 24 = 3 ∧
    (to_entry [0x2A] false) >>> 24 = 1 ∧
    (fullDuplexU8Entry 0x2A) >>> 24 = 8 := by decide

/-- Claim C5 (code bug): on a bank-2 event for pin 32 (status bit 0 set),
`interrupt_handler2` leaves pin 32's waker (slot 32) in place and wakes
nothing; were a waker stored in slot 0 — pin 0's slot — it would be the one
woken instead. -/
theorem interruptHandler2_wrong_waker_slot :
    (interruptHandler2 1
      ((List.replicate 54 (none : Option Nat)).set 32 (some 7))
      [0, 0, 0, 0, 0, 0]).woken = [] ∧
    (interruptHandler2 1
      ((List.replicate 54 (none : Option Nat)).set 32 (some 7))
      [0, 0, 0, 0, 0, 0]).wakers.getD 32 none = some 7 ∧
    (interruptHandler2 1
      ((List.replicate 54 (none : Option Nat)).set 0 (some 5))
      [0, 0, 0, 0, 0, 0]).woken = [5] := by decide

/-- Claim C10: the Mini-UART interrupt handler reaches `todo!()` (a panic)
when the interrupt-id bits equal `0b01`; case `0b10` clears bit 0 of the
interrupt-enable register and takes-and-wakes the reader waker; case `0b00`
changes nothing and wakes nobody. -/
theorem uartInterruptHandler_contract (id er : Nat) (w : Option Nat) :
    ((id >>> 1) &&& 0b11 = 1 →
      uartInterruptHandler id er w = UartIrqResult.panicTodo) ∧
    ((id >>> 1) &&& 0b11 = 2 →
      uartInterruptHandler id er w =
        UartIrqResult.ok (er &&& (U32_MASK ^^^ 0b01)) none w.toList) ∧
    ((id >>> 1) &&& 0b11 = 0 →
      uartInterruptHandler id er w = UartIrqResult.ok er w []) := by
  refine ⟨fun h => ?_, fun h => ?_, fun h => ?_⟩ <;>
    · unfold uartInterruptHandler
      rw [h]

/-- Witness for claim C10: interrupt id `0b010` (transmit-empty pending)
panics at the `todo!()`. -/
theorem uartInterruptHandler_contract_witness :
    uartInterruptHandler 2 5 (some 7) = UartIrqResult.panicTodo :=
  (uartInterruptHandler_contract 2 5 (some 7)).1 (by decide)

/-- Claim C6: every iteration of `Executor::run`'s loop swaps
`WORK_SIGNALED` with `false` (sequentially consistent) inside the critical
section, executes WFI exactly when the swapped-out value was `false`, and
never sleeps in an iteration that observed signaled work. -/
theorem executor_iteration_contract (w : Bool) :
    (runIteration w).1 = false ∧
    (ExecEvent.wfi ∈ (runIteration w).2 ↔ w = false) ∧
    ∃ mid, (runIteration w).2 =
        [ExecEvent.pollTasks, ExecEvent.csEnter] ++ mid ++ [ExecEvent.csExit] ∧
      ExecEvent.swapSeqCst w ∈ mid ∧ (ExecEvent.wfi ∈ mid ↔ w = false) := by
  cases w
  · exact ⟨rfl, by decide, [ExecEvent.swapSeqCst false, ExecEvent.wfi],
      by decide, by decide, by decide⟩
  · exact ⟨rfl, by decide, [ExecEvent.swapSeqCst true],
      by decide, by decide, by decide⟩

/-- Witness for claim C6 at `WORK_SIGNALED = true`: the flag ends `false`
and no WFI is executed. -/
theorem executor_iteration_contract_witness :
    (runIteration true).1 = false ∧
    (ExecEvent.wfi ∈ (runIteration true).2 ↔ true = false) :=
  ⟨(executor_iteration_contract true).1, (executor_iteration_contract true).2.1⟩

/-- The complemented channel mask never has the channel's own bit set. -/
theorem csMask_testBit_self (id : Nat) :
    (U32_MASK ^^^ (1 <<< channelBit id)).testBit (channelBit id) = false := by
  unfold channelBit
  by_cases h : id = 0 <;> simp [h] <;> decide

/-- Claim C2: for an allocated handle, `set_alarm(handle, deadline)` returns
`false` exactly when the deadline is not past `now()` at neither check —
that is, it returns `false` iff `deadline ≤ now()` at the pre-arm check or
the post-arm re-check; on the false path the slot ends free, every value the
call writes to the CS register has the channel's bit clear, and no callback
is invoked; on the true path the slot records the deadline and the channel's
compare register receives its low 32 bits. -/
theorem setAlarm_contract (id : Nat) (s : AlarmState) (t n1 n2 csRead : Nat) :
    ∃ r, setAlarm id (some s) t n1 n2 csRead = some r ∧
      (r.ret = false ↔ (t ≤ n1 ∨ t ≤ n2)) ∧
      r.invocations = [] ∧
      (r.ret = false → r.slot = none ∧
        ∀ v ∈ r.csWrites, v.testBit (channelBit id) = false) ∧
      (r.ret = true → r.slot = some { s with timestamp := t } ∧
        r.compareWrites = [t % 2 ^ 32] ∧ r.csWrites = []) := by
  by_cases h1 : t ≤ n1
  · refine ⟨⟨false, none, [], [], []⟩, ?_, ?_, rfl, ?_, ?_⟩
    · simp [setAlarm, h1]
    · simp [h1]
    · intro _
      exact ⟨rfl, by simp⟩
    · intro habs
      cases habs
  · by_cases h2 : t ≤ n2
    · refine ⟨⟨false, none, [t % 2 ^ 32],
        [csRead &&& (U32_MASK ^^^ (1 <<< channelBit id))], []⟩, ?_, ?_, rfl, ?_, ?_⟩
      · simp [setAlarm, h1, h2]
      · simp [h2]
      · intro _
        refine ⟨rfl, ?_⟩
        intro v hv
        simp only [List.mem_singleton] at hv
        subst hv
        simp only [Nat.testBit_and, csMask_testBit_self, Bool.and_false]
      · intro habs
        cases habs
    · refine ⟨⟨true, some { s with timestamp := t }, [t % 2 ^ 32], [], []⟩,
        ?_, ?_, rfl, ?_, ?_⟩
      · simp [setAlarm, h1, h2]
      · simp [h1, h2]
      · intro habs
        cases habs
      · intro _
        exact ⟨rfl, rfl, rfl⟩

/-- Witness for claim C2: deadline 100, `now()` readings 50 then 150 — the
post-arm re-check fails, the call returns `false` and frees the slot. -/
theorem setAlarm_contract_witness :
    ∃ r, setAlarm 0 (some ⟨0, 9, 9⟩) 100 50 150 255 = some r ∧
      r.ret = false ∧ r.slot = none := by
  obtain ⟨r, hr, hiff, _hinv, hfalse, _htrue⟩ :=
    setAlarm_contract 0 ⟨0, 9, 9⟩ 100 50 150 255
  have hret : r.ret = false := hiff.mpr (Or.inr (by omega))
  exact ⟨r, hr, hret, (hfalse hret).1⟩

/-- Claim C4: an armed alarm's interrupt first writes exactly the matching
channel bit to the CS register (write-1-to-clear); then, when the stored
timestamp is not in the future, it invokes the stored callback exactly once
with the stored context and leaves the slot allocated with timestamp 0; when
the deadline is still ahead throughout, it instead re-arms the compare
channel with the low 32 bits of the stored 64-bit timestamp, keeps the full
timestamp in the slot, and invokes no callback. -/
theorem alarmInterrupt_contract (id : Nat) (s : AlarmState)
    (nows csReads : Nat → Nat) (fuel : Nat) (hfuel : 0 < fuel) :
    (s.timestamp ≤ nows 0 →
      alarmInterrupt id (some s) nows csReads fuel =
        some ⟨some ⟨0, s.callbackId, s.ctx⟩, [(s.callbackId, s.ctx)], [],
          [1 <<< channelBit id]⟩) ∧
    ((∀ k, nows k < s.timestamp) →
      alarmInterrupt id (some s) nows csReads fuel =
        some ⟨some s, [], [s.timestamp % 2 ^ 32], [1 <<< channelBit id]⟩) := by
  obtain ⟨f, rfl⟩ : ∃ f, fuel = f + 1 := ⟨fuel - 1, by omega⟩
  constructor
  · intro h
    simp [alarmInterrupt, alarmLoop, h]
  · intro h
    have h0 : ¬s.timestamp ≤ nows 0 := by have := h 0; omega
    have h1 : ¬s.timestamp ≤ nows 1 := by have := h 1; omega
    have h2 : ¬s.timestamp ≤ nows 2 := by have := h 2; omega
    simp [alarmInterrupt, alarmLoop, setAlarm, h0, h1, h2]

/-- Witness for claim C4: channel C1, timestamp 100, `now()` fixed at 150 —
the callback fires once and the slot returns to the allocated state. -/
theorem alarmInterrupt_contract_witness :
    alarmInterrupt 0 (some ⟨100, 9, 9⟩) (fun _ => 150) (fun _ => 0) 1 =
      some ⟨some ⟨0, 9, 9⟩, [(9, 9)], [], [2]⟩ :=
  (alarmInterrupt_contract 0 ⟨100, 9, 9⟩ (fun _ => 150) (fun _ => 0) 1
    (by decide)).1 (by decide)

/-- Claim C9: the host serial loader emits serial writes only after reading
one byte equal to `0xFF`; the written byte sequence is then exactly the
4-byte little-endian encoding of the binary's length followed by the payload
bytes in order, and any handshake or size failure aborts with no writes. -/
theorem bootcomRun_contract (ready : Nat) (binary : List Nat) :
    (∀ evs, bootcomRun ready binary = some evs →
      ready = 0xFF ∧ binary.length < 2 ^ 32 ∧
      evs = HostEvent.readByte 0xFF ::
        ((u32LeBytes binary.length ++ binary).map HostEvent.writeByte)) ∧
    (ready ≠ 0xFF → bootcomRun ready binary = none) ∧
    (2 ^ 32 ≤ binary.length → bootcomRun ready binary = none) := by
  have hpow : (2 : Nat) ^ 32 = 4294967296 := by norm_num
  refine ⟨fun evs hevs => ?_, fun h => ?_, fun h => ?_⟩
  · by_cases hr : ready = 0xFF
    · by_cases hl : binary.length < 2 ^ 32
      · refine ⟨hr, hl, ?_⟩
        simp only [bootcomRun, hr, if_true, if_pos hl, Option.some.injEq,
          reduceIte] at hevs
        rw [← hevs]
        simp
      · rw [hpow] at hl
        simp [bootcomRun, hr, hl] at hevs
    · simp [bootcomRun, hr] at hevs
  · simp [bootcomRun, h]
  · rw [hpow] at h
    by_cases hr : ready = 0xFF <;> simp [bootcomRun, hr]
    omega

/-- Witness for claim C9 with the 4-byte payload `DE AD BE EF`. -/
theorem bootcomRun_contract_witness :
    ∃ evs, bootcomRun 0xFF [0xDE, 0xAD, 0xBE, 0xEF] = some evs ∧
      evs = HostEvent.readByte 0xFF ::
        ((u32LeBytes 4 ++ [0xDE, 0xAD, 0xBE, 0xEF]).map HostEvent.writeByte) := by
  refine ⟨_, rfl, ?_⟩
  have h := (bootcomRun_contract 0xFF [0xDE, 0xAD, 0xBE, 0xEF]).1 _ rfl
  exact h.2.2

/-- A run of the blocking-read loop returns `Overrun` only when some
consumed LINE_STATUS value has bit 1 set. -/
theorem uartReadGo_overrun {bufLen : Nat} {datas : Nat → Nat} :
    ∀ (sts : List Nat) (count : Nat) (acc : List Nat),
      uartReadGo bufLen datas sts count acc = some UartReadResult.overrun →
      ∃ st ∈ sts, st &&& 2 ≠ 0 := by
  intro sts
  induction sts with
  | nil =>
    intro count acc h
    simp [uartReadGo] at h
  | cons st rest ih =>
    intro count acc h
    simp only [uartReadGo] at h
    by_cases h2 : st &&& 2 ≠ 0
    · exact ⟨st, List.mem_cons_self st rest, h2⟩
    · rw [if_neg h2] at h
      by_cases h1 : st &&& 1 ≠ 0
      · rw [if_pos h1] at h
        by_cases hc : count + 1 = bufLen
        · rw [if_pos hc] at h
          simp at h
        · rw [if_neg hc] at h
          obtain ⟨st2, hm, hb⟩ := ih _ _ h
          exact ⟨st2, List.mem_cons_of_mem st hm, hb⟩
      · rw [if_neg h1] at h
        by_cases hc : count ≠ 0
        · rw [if_pos hc] at h
          simp at h
        · rw [if_neg hc] at h
          obtain ⟨st2, hm, hb⟩ := ih _ _ h
          exact ⟨st2, List.mem_cons_of_mem st hm, hb⟩

/-- A successful run of the blocking-read loop extends the accumulator with
exactly the low bytes of the IO reads `count`, `count+1`, …, and stops either
with a full buffer or with a nonempty partial count. -/
theorem uartReadGo_ok {bufLen : Nat} {datas : Nat → Nat} :
    ∀ (sts : List Nat) (count : Nat) (acc : List Nat), count < bufLen →
      ∀ n bytes,
        uartReadGo bufLen datas sts count acc =
            some (UartReadResult.ok n bytes) →
        count ≤ n ∧ n ≤ bufLen ∧
        bytes = acc ++ (List.range' count (n - count)).map
          (fun i => datas i % 256) ∧
        (n = bufLen ∨ (n ≠ 0 ∧ n < bufLen)) := by
  intro sts
  induction sts with
  | nil =>
    intro count acc hcount n bytes h
    simp [uartReadGo] at h
  | cons st rest ih =>
    intro count acc hcount n bytes h
    simp only [uartReadGo] at h
    by_cases h2 : st &&& 2 ≠ 0
    · rw [if_pos h2] at h
      simp at h
    · rw [if_neg h2] at h
      by_cases h1 : st &&& 1 ≠ 0
      · rw [if_pos h1] at h
        by_cases hc : count + 1 = bufLen
        · rw [if_pos hc] at h
          simp only [Option.some.injEq, UartReadResult.ok.injEq] at h
          obtain ⟨hn, hb⟩ := h
          subst hn
          refine ⟨by omega, le_refl _, ?_, Or.inl rfl⟩
          rw [← hb]
          have hd : bufLen - count = 1 := by omega
          rw [hd]
          simp [List.range'_one]
        · rw [if_neg hc] at h
          have hcount1 : count + 1 < bufLen := by omega
          obtain ⟨hle, hub, hb, hd⟩ := ih (count + 1) _ hcount1 n bytes h
          refine ⟨by omega, hub, ?_, hd⟩
          rw [hb]
          have hrange : n - count = (n - (count + 1)) + 1 := by omega
          rw [hrange, List.range'_succ]
          simp
      · rw [if_neg h1] at h
        by_cases hc : count ≠ 0
        · rw [if_pos hc] at h
          simp only [Option.some.injEq, UartReadResult.ok.injEq] at h
          obtain ⟨hn, hb⟩ := h
          refine ⟨by omega, by omega, ?_, Or.inr ⟨by omega, by omega⟩⟩
          rw [← hb, ← hn]
          simp
        · rw [if_neg hc] at h
          exact ih count acc hcount n bytes h

/-- When every polled LINE_STATUS value shows data ready and no overrun, and
enough polls are available, the blocking-read loop fills the buffer. -/
theorem uartReadGo_all_ready {bufLen : Nat} {datas : Nat → Nat} :
    ∀ (sts : List Nat) (count : Nat) (acc : List Nat), count < bufLen →
      (∀ st ∈ sts, st &&& 2 = 0 ∧ st &&& 1 ≠ 0) →
      bufLen - count ≤ sts.length →
      uartReadGo bufLen datas sts count acc =
        some (UartReadResult.ok bufLen
          (acc ++ (List.range' count (bufLen - count)).map
            (fun i => datas i % 256))) := by
  intro sts
  induction sts with
  | nil =>
    intro count acc hcount hready hlen
    simp at hlen
    omega
  | cons st rest ih =>
    intro count acc hcount hready hlen
    obtain ⟨hst2, hst1⟩ := hready st (List.mem_cons_self st rest)
    simp only [uartReadGo]
    rw [if_neg (by simp [hst2]), if_pos hst1]
    by_cases hc : count + 1 = bufLen
    · rw [if_pos hc]
      have hd : bufLen - count = 1 := by omega
      rw [hd]
      simp [List.range'_one]
    · rw [if_neg hc]
      have hcount1 : count + 1 < bufLen := by omega
      rw [ih (count + 1) _ hcount1
        (fun st2 hm => hready st2 (List.mem_cons_of_mem st hm))
        (by simp at hlen ⊢; omega)]
      have hrange : bufLen - count = (bufLen - (count + 1)) + 1 := by omega
      rw [hrange, List.range'_succ]
      simp

/-- Claim C7: the blocking Mini-UART `read` returns `Err(Overrun)` only when
a LINE_STATUS poll showed bit 1 set; any `Ok(n)` stores exactly the low
bytes of the first n IO_REG reads in order, with n the full buffer length or
a nonzero partial count; when data stays ready the whole buffer is filled
and `Ok(buf.len())` is returned; and when data stops being ready after one
byte (on a buffer of at least two), the call returns `Ok(1)`. -/
theorem uartRead_contract (statuses : List Nat) (datas : Nat → Nat)
    (bufLen : Nat) :
    (uartRead statuses datas bufLen = some UartReadResult.overrun →
      ∃ st ∈ statuses, st &&& 2 ≠ 0) ∧
    (∀ n bytes,
      uartRead statuses datas bufLen = some (UartReadResult.ok n bytes) →
      n ≤ bufLen ∧ bytes = (List.range n).map (fun i => datas i % 256) ∧
      (n = bufLen ∨ (1 ≤ n ∧ n < bufLen))) ∧
    ((∀ st ∈ statuses, st &&& 2 = 0 ∧ st &&& 1 ≠ 0) →
      bufLen ≤ statuses.length →
      uartRead statuses datas bufLen =
        some (UartReadResult.ok bufLen
          ((List.range bufLen).map (fun i => datas i % 256)))) ∧
    (∀ s1 s2 rest, statuses = s1 :: s2 :: rest →
      s1 &&& 2 = 0 → s1 &&& 1 ≠ 0 → s2 &&& 2 = 0 → s2 &&& 1 = 0 →
      2 ≤ bufLen →
      uartRead statuses datas bufLen =
        some (UartReadResult.ok 1 [datas 0 % 256])) ∧
    (∀ s1 rest, statuses = s1 :: rest → s1 &&& 2 ≠ 0 → bufLen ≠ 0 →
      uartRead statuses datas bufLen = some UartReadResult.overrun) := by
  refine ⟨?_, ?_, ?_, ?_, ?_⟩
  · intro h
    by_cases hb : bufLen = 0
    · simp [uartRead, hb] at h
    · rw [uartRead, if_neg hb] at h
      exact uartReadGo_overrun statuses 0 [] h
  · intro n bytes h
    by_cases hb : bufLen = 0
    · subst hb
      rw [uartRead, if_pos rfl] at h
      injection h with h1
      injection h1 with hn hbytes
      exact ⟨by omega, by rw [← hbytes, ← hn]; simp, Or.inl hn.symm⟩
    · rw [uartRead, if_neg hb] at h
      obtain ⟨_, hub, hbytes, hd⟩ :=
        uartReadGo_ok statuses 0 [] (by omega) n bytes h
      refine ⟨hub, ?_, ?_⟩
      · rw [hbytes]
        simp [List.range_eq_range']
      · rcases hd with hd | hd
        · exact Or.inl hd
        · exact Or.inr ⟨by omega, hd.2⟩
  · intro hready hlen
    by_cases hb : bufLen = 0
    · simp [uartRead, hb]
    · rw [uartRead, if_neg hb,
        uartReadGo_all_ready statuses 0 [] (by omega) hready (by omega)]
      simp [List.range_eq_range']
  · intro s1 s2 rest hsts hs12 hs11 hs22 hs21 hbuf
    subst hsts
    have hb0 : ¬bufLen = 0 := by omega
    have hb1 : ¬1 = bufLen := by omega
    simp [uartRead, uartReadGo, hs12, hs11, hs22, hs21, hb0, hb1]
    intro hmod
    rw [Nat.and_one_is_mod] at hs11
    exact absurd hmod hs11
  · intro s1 rest hsts hs1 hb
    subst hsts
    rw [uartRead, if_neg hb]
    simp only [uartReadGo]
    rw [if_pos hs1]

/-- Witness for claim C7: two ready polls fill a 2-byte buffer with the low
bytes of the first two IO reads. -/
theorem uartRead_contract_witness :
    uartRead [1, 1] (fun k => 65 + k) 2 =
      some (UartReadResult.ok 2 ((List.range 2).map (fun i => (65 + i) % 256))) :=
  (uartRead_contract [1, 1] (fun k => 65 + k) 2).2.2.1 (by decide) (by decide)

end RpiDevenv
